import Mathlib

/-!
Verification development for `sumdir` (src/main.rs): a directory-census
tool that walks a tree, classifies regular files by name extension and by
content-sniffed mimetype, aggregates counts/size into a `Report`, and
renders the report as text, CSV or JSON.

The Rust source is shallowly embedded: filesystem traversal becomes an
explicit list of walk items (the sequence `WalkDir::new(target)
.into_iter().skip(1)` would yield), file contents become `Option (List
Nat)` (bytes; `none` models an open/read failure), and the stateful
`scan`/`process_entry` functions become explicit state passing over the
`Report` structure.  Machine integers (`u64` sizes, `i32` counts) are
modelled as `Nat`: the code only adds and increments, and no claim
concerns wraparound.
-/

namespace Sumdir

/-- A recoverable per-entry scan error, mirroring `struct ScanError
\x7b path: PathBuf, message: String \x7d`.  Paths are modelled as `String`. -/
structure ScanError where
  path : String
  message : String
deriving Repr, DecidableEq

/-- The aggregate result, mirroring `struct Report`.  The Rust `BTreeMap
<String, i32>` count maps are modelled as association lists whose keys are
kept in strictly ascending order (the order a `BTreeMap` iterates in);
counts are `Nat` since the code only ever inserts `1` or increments. -/
structure Report where
  extensions : List (String × Nat)
  mimetypes : List (String × Nat)
  folders : List String
  size : Nat
  errors : List ScanError
deriving Repr, DecidableEq

/-- `Report::default()`: everything empty. -/
def Report.empty : Report :=
  ⟨[], [], [], 0, []⟩

/-- Strict lexicographic comparison of character lists by Unicode
scalar value.  For UTF-8 encoded strings this coincides with Rust's
byte-wise `Ord` on `String` (UTF-8 is order-preserving), the order a
`BTreeMap<String, _>` sorts its keys by. -/
def strLtChars : List Char → List Char → Bool
  | [], [] => false
  | [], _ :: _ => true
  | _ :: _, [] => false
  | a :: as, b :: bs =>
      if a.toNat < b.toNat then true
      else if b.toNat < a.toNat then false
      else strLtChars as bs

/-- Rust's `String` ordering (lexicographic). -/
def strLt (a b : String) : Bool :=
  strLtChars a.data b.data

/-- `BTreeMap::entry(k).and_modify(|e| *e += 1).or_insert(1)` on the
sorted-association-list model: increment the count at `k`, inserting
`(k, 1)` at its ordered position when absent. -/
def incr (m : List (String × Nat)) (k : String) : List (String × Nat) :=
  match m with
  | [] => [(k, 1)]
  | (k₁, v) :: rest =>
      if strLt k k₁ then (k, 1) :: (k₁, v) :: rest
      else if k = k₁ then (k₁, v + 1) :: rest
      else (k₁, v) :: incr rest k

/-- Sum of the values of a count map (`data.values().sum()`). -/
def sumValues (m : List (String × Nat)) : Nat :=
  (m.map (fun kv => kv.2)).sum

/-- Rust `\x7b:?\x7d` debug formatting of a path: the path between double
quotes (escaping of special characters inside the path is not modelled;
the claims only use paths without them). -/
def dq (p : String) : String :=
  "\"" ++ p ++ "\""

/-! ### Extension extraction

`process_entry` computes `entry.path().extension().unwrap_or_default()`.
Rust `Path::extension` takes the final component of the path (the file
name) and returns the portion after its last `.`, except that it returns
`None` when there is no `.` or when the only `.` starts the file name
(a leading dot marks a hidden file, not an empty stem). -/

/-- Split a reversed character list at its first `.`: returns the
characters before the dot (the extension, reversed) and the rest (the
stem, reversed), or `none` when the list has no dot. -/
def splitAtDot : List Char → Option (List Char × List Char)
  | [] => none
  | c :: cs =>
      if c = '.' then some ([], cs)
      else
        match splitAtDot cs with
        | none => none
        | some (e, rest) => some (c :: e, rest)

/-- Rust `Path::extension` on a bare file name (as a character list):
the portion after the final `.`; empty when there is no `.` or when the
part before the final `.` is empty (name starts with its only `.`). -/
def extOfChars (name : List Char) : List Char :=
  match splitAtDot name.reverse with
  | none => []
  | some (eRev, stemRev) => if stemRev = [] then [] else eRev.reverse

/-- The final component of a path: the characters after the last `/`
(walkdir never yields paths with a trailing slash). -/
def fileNameOf (p : String) : String :=
  String.mk ((p.data.reverse.takeWhile (fun c => c ≠ '/')).reverse)

/-- `entry.path().extension().unwrap_or_default().into_string()
.unwrap_or_default()` from `process_entry` (non-UTF-8 names cannot arise
in the `String` model, so `into_string` always succeeds). -/
def extensionOf (p : String) : String :=
  String.mk (extOfChars (fileNameOf p).data)

/-! ### Content sniffing -/

/-- Modelled from the spec: the signature table of the external `infer`
crate (a dependency, not part of src/) — "an ordered table of binary
signatures (magic numbers) for common formats"; a representative subset
of its magic-number checks, each a prefix match on the read buffer.  The
claims about `detect_mimetype` depend only on `inferGet` being a function
of the buffer, not on the table's contents. -/
def inferGet (buf : List Nat) : Option String :=
  if [0x89, 0x50, 0x4E, 0x47, 0x0D, 0x0A, 0x1A, 0x0A].isPrefixOf buf then some "image/png"
  else if [0xFF, 0xD8, 0xFF].isPrefixOf buf then some "image/jpeg"
  else if [0x47, 0x49, 0x46, 0x38].isPrefixOf buf then some "image/gif"
  else if [0x25, 0x50, 0x44, 0x46].isPrefixOf buf then some "application/pdf"
  else if [0x50, 0x4B, 0x03, 0x04].isPrefixOf buf then some "application/zip"
  else none

/-- `detect_mimetype`: opens the file and reads at most 8192 bytes into
`buffer`, then classifies `buffer[..bytes_read]` with `infer::get`,
falling back to `application/octet-stream` when no signature matches.
The file's readable content is `some bytes`; `none` models a failed
`File::open` (or `read`), which the code propagates as an error with the
`failed to open \x7b:?\x7d` context (open and read failures are collapsed
into one failure case in this model). -/
def detectMimetype (path : String) (content : Option (List Nat)) : Except String String :=
  match content with
  | none => Except.error ("failed to open " ++ dq path)
  | some bytes =>
      match inferGet (bytes.take 8192) with
      | some kind => Except.ok kind
      | none => Except.ok "application/octet-stream"

/-! ### Scanning -/

/-- One item of the walk sequence `WalkDir::new(target).into_iter()
.skip(1)` (the root itself is skipped): a directory, a non-directory
entry (with its metadata size, or `none` when the `metadata()` call
fails, and its readable content, or `none` when opening/reading fails),
or a traversal-level walkdir error with its best-available path. -/
inductive WalkItem where
  | dir (path : String)
  | file (path : String) (meta : Option Nat) (content : Option (List Nat))
  | fail (path : String) (msg : String)
deriving Repr, DecidableEq

/-- `process_entry`: computes the extension, reads metadata (failure
aborts with the `failed to read metadata` message **before** any report
update), adds the size and increments the extension count, then detects
the mimetype (failure aborts with the `failed to detect mimetype`
message **after** size/extension were already recorded) and finally
increments the mimetype count.  Returns the (possibly partially) updated
report and `none` on success, or the report together with the error's
display string (`e.to_string()` on an `anyhow` error shows the outermost
context). -/
def processEntry (path : String) (meta : Option Nat) (content : Option (List Nat))
    (r : Report) : Report × Option String :=
  let ext := extensionOf path
  match meta with
  | none => (r, some ("failed to read metadata for " ++ dq path))
  | some sz =>
      let r₁ : Report :=
        { r with size := r.size + sz, extensions := incr r.extensions ext }
      match detectMimetype path content with
      | Except.error _ => (r₁, some ("failed to detect mimetype for " ++ dq path))
      | Except.ok mime => ({ r₁ with mimetypes := incr r₁.mimetypes mime }, none)

/-- One iteration of the `for entry in WalkDir...` loop in `scan`:
directories are appended to `folders`; other entries go through
`process_entry`, and a returned error is appended to `errors` with the
entry's path; a traversal-level error is appended to `errors` with the
`failed to read entry` message. -/
def scanStep (r : Report) (item : WalkItem) : Report :=
  match item with
  | WalkItem.dir p => { r with folders := r.folders ++ [p] }
  | WalkItem.file p meta content =>
      match processEntry p meta content r with
      | (r₁, none) => r₁
      | (r₁, some msg) => { r₁ with errors := r₁.errors ++ [⟨p, msg⟩] }
  | WalkItem.fail p msg =>
      { r with errors := r.errors ++ [⟨p, "failed to read entry: " ++ msg⟩] }

/-- The `scan` loop over a walk sequence, starting from a given report. -/
def scanList (items : List WalkItem) (r : Report) : Report :=
  items.foldl scanStep r

/-- `scan`: fold the walk sequence over `Report::default()`. -/
def scan (items : List WalkItem) : Report :=
  scanList items Report.empty

/-- `main` after argument parsing: when the target path does not exist
the process prints a diagnostic and exits with code 1 before any
scanning; otherwise it scans and renders.  Existence of the root is a
boolean input of the model; `none` models the early exit. -/
def mainModel (targetExists : Bool) (items : List WalkItem) : Option Report :=
  if targetExists then some (scan items) else none

/-! ### Classifying walk items (used to state the aggregate claims) -/

/-- A non-directory entry whose metadata and content are both readable:
`process_entry` succeeds on it. -/
def isSuccess : WalkItem → Bool
  | WalkItem.file _ (some _) (some _) => true
  | _ => false

/-- A non-directory entry whose metadata reads but whose content does
not: `process_entry` fails at the mimetype-detection step, after size
and extension were recorded. -/
def isMimeFail : WalkItem → Bool
  | WalkItem.file _ (some _) none => true
  | _ => false

/-- A non-directory entry whose metadata read fails: `process_entry`
fails before any report update. -/
def isMetaFail : WalkItem → Bool
  | WalkItem.file _ none _ => true
  | _ => false

/-- Any walk item that produces a `ScanError` (traversal-level failure,
metadata failure, or content/mimetype failure). -/
def isFailItem : WalkItem → Bool
  | WalkItem.dir _ => false
  | WalkItem.file _ (some _) (some _) => false
  | WalkItem.file _ _ _ => true
  | WalkItem.fail _ _ => true

/-- A directory item. -/
def isDir : WalkItem → Bool
  | WalkItem.dir _ => true
  | _ => false

/-- The size `scan` accumulates for one item: the metadata size of any
non-directory entry whose metadata reads (including those that later
fail mimetype detection), `0` otherwise. -/
def sizeOfItem : WalkItem → Nat
  | WalkItem.file _ (some sz) _ => sz
  | _ => 0

/-! ### Size formatting -/

/-- `friendly_bytes`, with the `let` bindings inlined: strict `> 1024`
thresholds, integer floor division at every tier. -/
def friendlyBytes (bytes : Nat) : String :=
  if bytes > 1024 then
    if bytes / 1024 > 1024 then
      if bytes / 1024 / 1024 > 1024 then
        if bytes / 1024 / 1024 / 1024 > 1024 then
          toString (bytes / 1024 / 1024 / 1024 / 1024) ++ " TiB"
        else toString (bytes / 1024 / 1024 / 1024) ++ " GiB"
      else toString (bytes / 1024 / 1024) ++ " MiB"
    else toString (bytes / 1024) ++ " KiB"
  else toString bytes ++ " bytes"

/-! ### Rendering

All three display modes iterate `data.iter().sorted_by(|a, b|
b.1.cmp(a.1))`: a stable sort (itertools `sorted_by` uses
`slice::sort_by`, Rust's stable sort) of the `BTreeMap`'s
ascending-by-key iteration order, comparing by count descending only.
A stable sort of a given sequence under a given total preorder is a
unique list, so it is modelled by stable insertion sort: an element is
inserted after every earlier element whose count is strictly larger and
before the rest, which preserves the original relative order of
equal-count entries. -/

/-- Insert an entry into an already-sorted (by count, descending) list,
after the entries with strictly larger count and before all others. -/
def insertByCount (x : String × Nat) : List (String × Nat) → List (String × Nat)
  | [] => [x]
  | y :: ys => if x.2 < y.2 then y :: insertByCount x ys else x :: y :: ys

/-- `data.iter().sorted_by(|a, b| b.1.cmp(a.1))`: stable sort by count
descending, as stable insertion sort. -/
def sortEntries (m : List (String × Nat)) : List (String × Nat) :=
  m.foldr insertByCount []

/-- The character `"` (written by code point to keep string models
readable). -/
def chQuote : Char := Char.ofNat 34

/-- The character `\`. -/
def chBackslash : Char := Char.ofNat 92

/-- The character `\x7b`. -/
def chLBrace : Char := Char.ofNat 123

/-- The character `\x7d`. -/
def chRBrace : Char := Char.ofNat 125

/-- The character `[`. -/
def chLBrack : Char := Char.ofNat 91

/-- The character `]`. -/
def chRBrack : Char := Char.ofNat 93

/-- Rust `str::replace` restricted to a single-character pattern:
replace every occurrence of `c` by `rep`. -/
def replaceChar (c : Char) (rep : List Char) : List Char → List Char
  | [] => []
  | x :: xs => if x = c then rep ++ replaceChar c rep xs else x :: replaceChar c rep xs

/-- `e.message.replace('\\', "\\\\").replace('\"', "\\\"")` from
`display_json`: escape backslashes first, then double quotes. -/
def escapeMessage (s : String) : String :=
  String.mk (replaceChar chQuote [chBackslash, chQuote]
    (replaceChar chBackslash [chBackslash, chBackslash] s.data))

/-- `display_text`: the summary line (count of the chosen dimension,
folder count, friendly size, and an error count only when errors exist)
followed by one `key: count` line per sorted entry.  Each `println!`
contributes its trailing newline. -/
def displayText (r : Report) (data : List (String × Nat)) : String :=
  let errorInfo :=
    if r.errors = [] then "" else ", " ++ toString r.errors.length ++ " errors"
  toString (sumValues data) ++ " files, " ++ toString r.folders.length ++
    " folders, " ++ friendlyBytes r.size ++ errorInfo ++ "\n" ++
  String.join ((sortEntries data).map (fun kc => kc.1 ++ ": " ++ toString kc.2 ++ "\n"))

/-- `display_csv`: a `extension,count` / `mimetype,count` header then one
`key,count` row per sorted entry. -/
def displayCsv (data : List (String × Nat)) (useMime : Bool) : String :=
  (if useMime then "mimetype" else "extension") ++ ",count\n" ++
  String.join ((sortEntries data).map (fun kc => kc.1 ++ "," ++ toString kc.2 ++ "\n"))

/-- `display_json`: hand-assembled JSON, one string per `println!` line.
Count entries are joined with `",\n"`; error records interpolate the
path verbatim and the message through `escapeMessage`.  Note the
`println!("\x7b\x7d", entries.join(",\n"))` lines emit a bare newline
even when the joined list is empty. -/
def displayJson (r : Report) (data : List (String × Nat)) (useMime : Bool) : String :=
  let numFiles := sumValues data
  let keyName := if useMime then "mimetypes" else "extensions"
  let entries := (sortEntries data).map
    (fun kc => "    \"" ++ kc.1 ++ "\": " ++ toString kc.2)
  let errorEntries := r.errors.map (fun e =>
    "    \x7b\n      \"path\": \"" ++ e.path ++ "\",\n      \"message\": \"" ++
      escapeMessage e.message ++ "\"\n    \x7d")
  "\x7b\n" ++
  "  \"files\": " ++ toString numFiles ++ ",\n" ++
  "  \"folders\": " ++ toString r.folders.length ++ ",\n" ++
  "  \"size\": " ++ toString r.size ++ ",\n" ++
  "  \"" ++ keyName ++ "\": \x7b\n" ++
  String.intercalate ",\n" entries ++ "\n" ++
  "  \x7d,\n" ++
  "  \"errors\": [\n" ++
  String.intercalate ",\n" errorEntries ++ "\n" ++
  "  ]\n" ++
  "\x7d\n"

/-- The three `OutputFormat` variants. -/
inductive OutputFormat where
  | text
  | csv
  | json
deriving Repr, DecidableEq

/-- `Report::display`: select the grouping dimension (`mimetypes` when
`--mime`, else `extensions`) and dispatch on the output format.  Output
is returned as the string that would be printed. -/
def Report.display (r : Report) (format : OutputFormat) (useMime : Bool) : String :=
  let data := if useMime then r.mimetypes else r.extensions
  match format with
  | OutputFormat.text => displayText r data
  | OutputFormat.csv => displayCsv data useMime
  | OutputFormat.json => displayJson r data useMime

/-! ### A JSON syntax checker

To state the claims about JSON well-formedness, a recursive-descent
recogniser for JSON text (RFC 8259 values: objects, arrays, strings with
backslash escapes and no raw control characters, numbers, `true`,
`false`, `null`), written fuel-recursively so it is a total function. -/

/-- Drop leading JSON whitespace. -/
def skipWs : List Char → List Char
  | [] => []
  | c :: cs => if c = ' ' ∨ c = '\n' ∨ c = '\t' ∨ c = '\r' then skipWs cs else c :: cs

/-- Recognise the remainder of a JSON string after its opening quote:
any escaped pair or non-control, non-quote character until the closing
quote; returns the text after the string. -/
def parseStringRest : List Char → Option (List Char)
  | [] => none
  | c :: cs =>
      if c = chQuote then some cs
      else if c = chBackslash then
        match cs with
        | [] => none
        | _ :: cs₂ => parseStringRest cs₂
      else if c.toNat < 32 then none
      else parseStringRest cs

/-- Drop leading decimal digits. -/
def dropDigits : List Char → List Char
  | [] => []
  | c :: cs => if c.isDigit then dropDigits cs else c :: cs

/-- Require at least one decimal digit, then drop the run. -/
def digits1 : List Char → Option (List Char)
  | [] => none
  | c :: cs => if c.isDigit then some (dropDigits cs) else none

/-- Optional fraction part of a JSON number. -/
def parseFrac : List Char → Option (List Char)
  | [] => some []
  | c :: cs => if c = '.' then digits1 cs else some (c :: cs)

/-- Optional exponent part of a JSON number. -/
def parseExp : List Char → Option (List Char)
  | [] => some []
  | c :: cs =>
      if c = 'e' ∨ c = 'E' then
        match cs with
        | [] => none
        | d :: ds => if d = '+' ∨ d = '-' then digits1 ds else digits1 (d :: ds)
      else some (c :: cs)

/-- Recognise a JSON number: optional minus, digits, optional fraction,
optional exponent. -/
def parseNumber (l : List Char) : Option (List Char) :=
  let l₁ := match l with
    | c :: cs => if c = '-' then cs else c :: cs
    | [] => []
  match digits1 l₁ with
  | none => none
  | some rest =>
      match parseFrac rest with
      | none => none
      | some rest₂ => parseExp rest₂

/-- Recognise a literal keyword. -/
def parseLit (kw : List Char) (l : List Char) : Option (List Char) :=
  if kw.isPrefixOf l then some (l.drop kw.length) else none

/-- The three nonterminals of the JSON recogniser: a value, the
non-empty member list of an object (up to and including its closing
brace), and the non-empty item list of an array (up to and including its
closing bracket). -/
inductive JsonPart where
  | value
  | members
  | items

/-- Recognise one JSON nonterminal; returns the remaining text on
success.  `fuel` bounds the recursion depth (structural recursion on
`fuel`, so the function evaluates by kernel reduction). -/
def parseJson : Nat → JsonPart → List Char → Option (List Char)
  | 0, _, _ => none
  | fuel + 1, JsonPart.value, l =>
      match skipWs l with
      | [] => none
      | c :: cs =>
          if c = chQuote then parseStringRest cs
          else if c = chLBrace then
            match skipWs cs with
            | [] => none
            | d :: ds =>
                if d = chRBrace then some ds else parseJson fuel JsonPart.members (d :: ds)
          else if c = chLBrack then
            match skipWs cs with
            | [] => none
            | d :: ds =>
                if d = chRBrack then some ds else parseJson fuel JsonPart.items (d :: ds)
          else if c = 't' then parseLit ['r', 'u', 'e'] cs
          else if c = 'f' then parseLit ['a', 'l', 's', 'e'] cs
          else if c = 'n' then parseLit ['u', 'l', 'l'] cs
          else parseNumber (c :: cs)
  | fuel + 1, JsonPart.members, l =>
      match skipWs l with
      | [] => none
      | c :: cs =>
          if c = chQuote then
            match parseStringRest cs with
            | none => none
            | some afterKey =>
                match skipWs afterKey with
                | [] => none
                | d :: ds =>
                    if d = ':' then
                      match parseJson fuel JsonPart.value ds with
                      | none => none
                      | some afterVal =>
                          match skipWs afterVal with
                          | [] => none
                          | e :: es =>
                              if e = ',' then parseJson fuel JsonPart.members es
                              else if e = chRBrace then some es
                              else none
                    else none
          else none
  | fuel + 1, JsonPart.items, l =>
      match parseJson fuel JsonPart.value l with
      | none => none
      | some afterVal =>
          match skipWs afterVal with
          | [] => none
          | e :: es =>
              if e = ',' then parseJson fuel JsonPart.items es
              else if e = chRBrack then some es
              else none

/-- A string is syntactically valid JSON when it consists of exactly one
JSON value surrounded by whitespace. -/
def isValidJson (s : String) : Bool :=
  match parseJson (s.length + 1) JsonPart.value s.data with
  | none => false
  | some rest => (skipWs rest).isEmpty

/-- The rendering order of the formatter: count strictly descending,
ties broken by key strictly ascending. -/
def entryOrd (a b : String × Nat) : Prop :=
  b.2 < a.2 ∨ (a.2 = b.2 ∧ strLt a.1 b.1 = true)

instance (a b : String × Nat) : Decidable (entryOrd a b) := by
  unfold entryOrd; infer_instance

/-- A report containing one scan error whose path contains a double
quote. -/
def reportQuotedPath : Report :=
  { Report.empty with errors := [⟨"a\"b", "m"⟩] }

/-- A report containing one scan error whose message contains a double
quote (and a clean path). -/
def reportQuotedMessage : Report :=
  { Report.empty with errors := [⟨"p", "a\"b"⟩] }

/-! ## Helper lemmas -/

theorem splitAtDot_of_not_mem {l : List Char} (h : '.' ∉ l) : splitAtDot l = none := by
  induction l with
  | nil => rfl
  | cons c cs ih =>
      rw [List.mem_cons, not_or] at h
      simp only [splitAtDot]
      rw [if_neg (fun hc => h.1 hc.symm), ih h.2]

theorem splitAtDot_append {e : List Char} (rest : List Char) (h : '.' ∉ e) :
    splitAtDot (e ++ '.' :: rest) = some (e, rest) := by
  induction e with
  | nil => simp [splitAtDot]
  | cons c cs ih =>
      rw [List.mem_cons, not_or] at h
      simp only [List.cons_append, splitAtDot, List.append_eq]
      rw [if_neg (fun hc => h.1 hc.symm), ih h.2]

/-! ## The claims -/

/-- C3: for every regular-file entry the recorded extension is the
substring after the file name's final `.`, case preserved — except that
the claim's own example is wrong on the code: Rust `Path::extension`
returns `None` for a name whose only `.` is the leading one, so
`.gitignore` is recorded under the empty extension, not `gitignore`.
Amended statement: the extension is the substring after the final `.`
(case preserved), empty when the name has no `.` **or** when the name
begins with its only `.`. -/
theorem c3_extension_amended :
    (∀ stem suffix : List Char, stem ≠ [] → '.' ∉ suffix →
        extOfChars (stem ++ '.' :: suffix) = suffix) ∧
    (∀ name : List Char, '.' ∉ name → extOfChars name = []) ∧
    (∀ suffix : List Char, '.' ∉ suffix → extOfChars ('.' :: suffix) = []) ∧
    extensionOf "Foo.TXT" = "TXT" ∧ extensionOf "dir/archive.tar.gz" = "gz" := by
  refine ⟨?_, ?_, ?_, by decide, by decide⟩
  · intro stem suffix hstem hdot
    have hrev : (stem ++ '.' :: suffix).reverse = suffix.reverse ++ '.' :: stem.reverse := by
      simp
    have hmem : '.' ∉ suffix.reverse := by simpa using hdot
    simp only [extOfChars, hrev, splitAtDot_append _ hmem]
    rw [if_neg (by simpa using hstem), List.reverse_reverse]
  · intro name h
    have hmem : '.' ∉ name.reverse := by simpa using h
    simp [extOfChars, splitAtDot_of_not_mem hmem]
  · intro suffix h
    have hrev : ('.' :: suffix).reverse = suffix.reverse ++ '.' :: ([] : List Char) := by
      simp
    have hmem : '.' ∉ suffix.reverse := by simpa using h
    simp [extOfChars, hrev, splitAtDot_append _ hmem]

/-- C3 witness: `Foo.TXT`-shaped input through the general statement. -/
theorem c3_extension_amended_witness :
    (['F'] : List Char) ≠ [] ∧ '.' ∉ (['t'] : List Char) ∧
    extOfChars (['F'] ++ '.' :: ['t']) = ['t'] :=
  ⟨by decide, by decide, c3_extension_amended.1 ['F'] ['t'] (by decide) (by decide)⟩

/-- C3 counterexample: the code maps `.gitignore` to the empty
extension, not to `gitignore` as the claim states. -/
theorem c3_counterexample :
    extensionOf ".gitignore" = "" ∧ extensionOf ".gitignore" ≠ "gitignore" := by
  exact ⟨by decide, by decide⟩

/-- C4: the size formatter uses binary 1024-based units with floor
division over bytes → KiB → MiB → GiB → TiB — but the thresholds are
strict (`> 1024`, from the code), not the `≥ 1024` the claim states:
values up to and including 1024 render as bytes, and a unit is abandoned
for the next one only when the value at that tier strictly exceeds 1024.
Amended statement: `friendlyBytes` renders `"<n> bytes"` for `n ≤ 1024`,
`"<n/1024> KiB"` for `1024 < n < 1025·1024`, `"<n/1024²> MiB"` for
`1025·1024 ≤ n < 1025·1024²`, `"<n/1024³> GiB"` for `1025·1024² ≤ n <
1025·1024³`, and `"<n/1024⁴> TiB"` for `n ≥ 1025·1024³`; the spec's own
sample vectors (123, 1234, 1234567, 1234567890, 1234567890123) hold. -/
theorem c4_friendly_bytes_amended (n : Nat) :
    (n ≤ 1024 → friendlyBytes n = toString n ++ " bytes") ∧
    (1024 < n → n < 1025 * 1024 → friendlyBytes n = toString (n / 1024) ++ " KiB") ∧
    (1025 * 1024 ≤ n → n < 1025 * 1024 * 1024 →
        friendlyBytes n = toString (n / 1024 / 1024) ++ " MiB") ∧
    (1025 * 1024 * 1024 ≤ n → n < 1025 * 1024 * 1024 * 1024 →
        friendlyBytes n = toString (n / 1024 / 1024 / 1024) ++ " GiB") ∧
    (1025 * 1024 * 1024 * 1024 ≤ n →
        friendlyBytes n = toString (n / 1024 / 1024 / 1024 / 1024) ++ " TiB") ∧
    friendlyBytes 123 = "123 bytes" ∧ friendlyBytes 1234 = "1 KiB" ∧
    friendlyBytes 1234567 = "1 MiB" ∧ friendlyBytes 1234567890 = "1 GiB" ∧
    friendlyBytes 1234567890123 = "1 TiB" := by
  refine ⟨?_, ?_, ?_, ?_, ?_, by decide, by decide, by decide, by decide, by decide⟩
  · intro h
    simp only [friendlyBytes]
    rw [if_neg (by omega)]
  · intro h₁ h₂
    simp only [friendlyBytes]
    rw [if_pos (by omega), if_neg (by omega)]
  · intro h₁ h₂
    simp only [friendlyBytes]
    rw [if_pos (by omega), if_pos (by omega), if_neg (by omega)]
  · intro h₁ h₂
    simp only [friendlyBytes]
    rw [if_pos (by omega), if_pos (by omega), if_pos (by omega), if_neg (by omega)]
  · intro h₁
    simp only [friendlyBytes]
    rw [if_pos (by omega), if_pos (by omega), if_pos (by omega), if_pos (by omega)]

/-- C4 witness: the KiB range instantiated at 1234. -/
theorem c4_friendly_bytes_amended_witness :
    1024 < 1234 ∧ 1234 < 1025 * 1024 ∧
    friendlyBytes 1234 = toString (1234 / 1024) ++ " KiB" :=
  ⟨by decide, by decide, (c4_friendly_bytes_amended 1234).2.1 (by decide) (by decide)⟩

/-- C4 counterexample: exactly 1024 renders as `"1024 bytes"` (not
`"1 KiB"`), and exactly 1048576 renders as `"1024 KiB"` (not `"1 MiB"`),
because the code compares with strict `>`. -/
theorem c4_counterexample :
    friendlyBytes 1024 = "1024 bytes" ∧ friendlyBytes 1024 ≠ "1 KiB" ∧
    friendlyBytes 1048576 = "1024 KiB" ∧ friendlyBytes 1048576 ≠ "1 MiB" := by
  exact ⟨by decide, by decide, by decide, by decide⟩

/-- C5: the sniffer falls back to `application/octet-stream` when no
signature matches or the buffer is empty, and never makes the whole
scan fail — but an open/read failure is **not** turned into the
fallback label, contrary to the claim: `detect_mimetype` propagates it
as an error, which `scan` absorbs as one per-file `ScanError`.
Amended statement: on a readable file the sniffer always returns a
label, the fallback one when no signature matches (in particular on an
empty buffer); on an open/read failure it returns a recoverable error
to the caller, which `scan` records in `errors` without aborting. -/
theorem c5_sniffer_amended (p : String) (bytes : List Nat) :
    (inferGet (bytes.take 8192) = none →
        detectMimetype p (some bytes) = Except.ok "application/octet-stream") ∧
    detectMimetype p (some ([] : List Nat)) = Except.ok "application/octet-stream" ∧
    detectMimetype p none = Except.error ("failed to open " ++ dq p) ∧
    scan [WalkItem.file p (some 0) none] =
      { Report.empty with
          extensions := [(extensionOf p, 1)],
          errors := [⟨p, "failed to detect mimetype for " ++ dq p⟩] } := by
  refine ⟨?_, rfl, rfl, rfl⟩
  intro h
  simp [detectMimetype, h]

/-- C5 witness: a one-byte buffer matching no signature. -/
theorem c5_sniffer_amended_witness :
    inferGet (([0] : List Nat).take 8192) = none ∧
    detectMimetype "f" (some [0]) = Except.ok "application/octet-stream" :=
  ⟨by decide, (c5_sniffer_amended "f" [0]).1 (by decide)⟩

/-- C5 counterexample: on an unopenable file the sniffer returns an
error, not the fallback label the claim promises. -/
theorem c5_counterexample :
    detectMimetype "p" none = Except.error ("failed to open \"p\"") ∧
    detectMimetype "p" none ≠ Except.ok "application/octet-stream" := by
  refine ⟨rfl, ?_⟩
  simp [detectMimetype, dq]

/-- C6: the sniffer reads at most a fixed 8192-byte prefix of the file,
never the whole content: its classification of a readable file is a
function of the first 8192 bytes alone (the embedding reads
`bytes.take 8192`, the model of `file.read(&mut buffer)` with an
8192-byte buffer; this theorem states that truncating the file to that
prefix does not change the result). -/
theorem c6_bounded_read (p : String) (bytes : List Nat) :
    detectMimetype p (some bytes) = detectMimetype p (some (bytes.take 8192)) := by
  simp [detectMimetype, List.take_take]

theorem mem_insertByCount {z x : String × Nat} {l : List (String × Nat)}
    (h : z ∈ insertByCount x l) : z = x ∨ z ∈ l := by
  induction l with
  | nil => simpa [insertByCount] using h
  | cons y ys ih =>
      simp only [insertByCount] at h
      by_cases hc : x.2 < y.2
      · rw [if_pos hc] at h
        rcases List.mem_cons.mp h with h₁ | h₂
        · exact Or.inr (by simp [h₁])
        · rcases ih h₂ with h₃ | h₄
          · exact Or.inl h₃
          · exact Or.inr (by simp [h₄])
      · rw [if_neg hc] at h
        rcases List.mem_cons.mp h with h₁ | h₂
        · exact Or.inl h₁
        · exact Or.inr h₂

theorem insertByCount_perm (x : String × Nat) (l : List (String × Nat)) :
    (insertByCount x l).Perm (x :: l) := by
  induction l with
  | nil => simp [insertByCount]
  | cons y ys ih =>
      simp only [insertByCount]
      by_cases hc : x.2 < y.2
      · rw [if_pos hc]
        exact (ih.cons y).trans (List.Perm.swap x y ys)
      · rw [if_neg hc]

theorem pairwise_insertByCount {x : String × Nat} {l : List (String × Nat)}
    (hl : l.Pairwise entryOrd) (hx : ∀ z ∈ l, strLt x.1 z.1 = true) :
    (insertByCount x l).Pairwise entryOrd := by
  induction l with
  | nil => simp [insertByCount, entryOrd]
  | cons y ys ih =>
      rw [List.pairwise_cons] at hl
      obtain ⟨hy, hys⟩ := hl
      simp only [insertByCount]
      by_cases hc : x.2 < y.2
      · rw [if_pos hc]
        refine List.Pairwise.cons ?_ (ih hys (fun z hz => hx z (List.mem_cons_of_mem _ hz)))
        intro z hz
        rcases mem_insertByCount hz with h₁ | h₂
        · rw [h₁]
          exact Or.inl hc
        · exact hy z h₂
      · rw [if_neg hc]
        refine List.Pairwise.cons ?_ (List.Pairwise.cons hy hys)
        intro z hz
        rcases List.mem_cons.mp hz with h₁ | h₂
        · rw [h₁]
          rcases Nat.lt_or_ge y.2 x.2 with hlt | hge
          · exact Or.inl hlt
          · have heq : x.2 = y.2 := by omega
            exact Or.inr ⟨heq, hx y (List.mem_cons_self _ _)⟩
        · have hz2 : z.2 ≤ y.2 := by
            rcases hy z h₂ with h₃ | ⟨h₃, _⟩
            · omega
            · omega
          rcases Nat.lt_or_ge z.2 x.2 with h₄ | h₄
          · exact Or.inl h₄
          · have heq : x.2 = z.2 := by omega
            exact Or.inr ⟨heq, hx z (List.mem_cons_of_mem _ h₂)⟩

theorem sortEntries_perm (l : List (String × Nat)) : (sortEntries l).Perm l := by
  induction l with
  | nil => simp [sortEntries]
  | cons x xs ih =>
      show (insertByCount x (sortEntries xs)).Perm (x :: xs)
      exact (insertByCount_perm x (sortEntries xs)).trans (ih.cons x)

theorem pairwise_sortEntries : ∀ {l : List (String × Nat)},
    l.Pairwise (fun a b => strLt a.1 b.1 = true) → (sortEntries l).Pairwise entryOrd
  | [], _ => by simp [sortEntries]
  | x :: xs, hkeys => by
      rw [List.pairwise_cons] at hkeys
      obtain ⟨hx, hxs⟩ := hkeys
      show (insertByCount x (sortEntries xs)).Pairwise entryOrd
      refine pairwise_insertByCount (pairwise_sortEntries hxs) ?_
      intro z hz
      exact hx z ((sortEntries_perm xs).mem_iff.mp hz)

/-- C7: all three output modes render the entries of the chosen count
map through the same `sorted_by(|a, b| b.1.cmp(a.1))` pipeline: a stable
sort (by count descending) of the `BTreeMap`'s ascending-key iteration.
Result: for any count map with strictly ascending keys, the rendered
sequence is pairwise ordered by descending count with ties in ascending
lexicographic key order (a total order on the distinct keys), it is a
permutation of the map (nothing lost or duplicated), and rendering is a
pure function, so re-rendering any report in any mode yields identical
output. -/
theorem c7_render_order (l : List (String × Nat))
    (hkeys : l.Pairwise (fun a b => strLt a.1 b.1 = true)) :
    (sortEntries l).Pairwise entryOrd ∧ (sortEntries l).Perm l ∧
    (∀ (r : Report) (fmt : OutputFormat) (b : Bool),
        Report.display r fmt b = Report.display r fmt b) :=
  ⟨pairwise_sortEntries hkeys, sortEntries_perm l, fun _ _ _ => rfl⟩

/-- C7 witness: a map with a tie between keys `a` and `c`. -/
theorem c7_render_order_witness :
    ([("a", 1), ("b", 2), ("c", 1)] : List (String × Nat)).Pairwise
        (fun a b => strLt a.1 b.1 = true) ∧
    (sortEntries [("a", 1), ("b", 2), ("c", 1)]).Pairwise entryOrd ∧
    (sortEntries [("a", 1), ("b", 2), ("c", 1)]).Perm [("a", 1), ("b", 2), ("c", 1)] :=
  ⟨by decide, (c7_render_order _ (by decide)).1, (c7_render_order _ (by decide)).2.1⟩

theorem sumValues_incr (m : List (String × Nat)) (k : String) :
    sumValues (incr m k) = sumValues m + 1 := by
  induction m with
  | nil => simp [incr, sumValues]
  | cons kv rest ih =>
      obtain ⟨k₁, v⟩ := kv
      simp only [incr]
      by_cases h₁ : strLt k k₁
      · rw [if_pos h₁]
        simp [sumValues]
        omega
      · rw [if_neg h₁]
        by_cases h₂ : k = k₁
        · rw [if_pos h₂]
          simp [sumValues]
          omega
        · rw [if_neg h₂]
          simp only [sumValues, List.map_cons, List.sum_cons] at ih ⊢
          omega

theorem detectMimetype_some (p : String) (bytes : List Nat) :
    ∃ mime, detectMimetype p (some bytes) = Except.ok mime := by
  unfold detectMimetype
  cases h : inferGet (bytes.take 8192) <;> simp [h]

/-- The bookkeeping invariant of the `scan` loop, for any starting
report: the extension counts grow by one per metadata-readable file
(successes **and** mimetype-detection failures), the mimetype counts by
one per full success, the size by the metadata size of every
metadata-readable file, the error list by one per failing item, and the
folder list by one per directory. -/
theorem scanList_stats (items : List WalkItem) : ∀ r : Report,
    sumValues (scanList items r).extensions
        = sumValues r.extensions + (items.countP isSuccess + items.countP isMimeFail) ∧
    sumValues (scanList items r).mimetypes = sumValues r.mimetypes + items.countP isSuccess ∧
    (scanList items r).size = r.size + (items.map sizeOfItem).sum ∧
    (scanList items r).errors.length = r.errors.length + items.countP isFailItem ∧
    (scanList items r).folders.length = r.folders.length + items.countP isDir := by
  induction items with
  | nil => intro r; simp [scanList]
  | cons item rest ih =>
      intro r
      obtain ⟨h1, h2, h3, h4, h5⟩ := ih (scanStep r item)
      have hstep : scanList (item :: rest) r = scanList rest (scanStep r item) := rfl
      rw [hstep]
      cases item with
      | dir p =>
          simp only [scanStep] at h1 h2 h3 h4 h5
          refine ⟨?_, ?_, ?_, ?_, ?_⟩ <;>
            simp [h1, h2, h3, h4, h5, List.countP_cons, isSuccess, isMimeFail, isFailItem,
              isDir, sizeOfItem, scanStep]
          all_goals omega
      | fail p msg =>
          simp only [scanStep] at h1 h2 h3 h4 h5
          refine ⟨?_, ?_, ?_, ?_, ?_⟩ <;>
            simp [h1, h2, h3, h4, h5, List.countP_cons, isSuccess, isMimeFail, isFailItem,
              isDir, sizeOfItem, scanStep]
          all_goals omega
      | file p meta content =>
          cases meta with
          | none =>
              simp only [scanStep, processEntry] at h1 h2 h3 h4 h5
              refine ⟨?_, ?_, ?_, ?_, ?_⟩ <;>
                simp [h1, h2, h3, h4, h5, List.countP_cons, isSuccess, isMimeFail,
                  isFailItem, isDir, sizeOfItem, scanStep, processEntry]
              all_goals omega
          | some sz =>
              cases content with
              | none =>
                  simp only [scanStep, processEntry, detectMimetype] at h1 h2 h3 h4 h5
                  refine ⟨?_, ?_, ?_, ?_, ?_⟩ <;>
                    simp [h1, h2, h3, h4, h5, List.countP_cons, isSuccess, isMimeFail,
                      isFailItem, isDir, sizeOfItem, scanStep, processEntry, detectMimetype,
                      sumValues_incr] <;> omega
              | some bytes =>
                  obtain ⟨mime, hmime⟩ := detectMimetype_some p bytes
                  simp only [scanStep, processEntry, hmime] at h1 h2 h3 h4 h5
                  refine ⟨?_, ?_, ?_, ?_, ?_⟩ <;>
                    simp [h1, h2, h3, h4, h5, List.countP_cons, isSuccess, isMimeFail,
                      isFailItem, isDir, sizeOfItem, scanStep, processEntry, hmime,
                      sumValues_incr] <;> omega

theorem scan_def (items : List WalkItem) : scan items = scanList items Report.empty := rfl

/-- C1: the claim says a failing file contributes nothing to `size`,
`extensions` or `mimetypes` — true for metadata failures, but false for
content-read/mimetype failures: `process_entry` adds the size and
increments the extension count **before** calling `detect_mimetype`,
and those mutations persist when detection fails.  Amended statement:
on a metadata-read failure the file contributes nothing and exactly one
ScanError with the entry's path and cause is appended; on a
content-read (mimetype-detection) failure the file's size and extension
are still recorded, only `mimetypes` is left untouched, and exactly one
ScanError with the entry's path and cause is appended. -/
theorem c1_failure_contributions (p : String) (sz : Nat) (c : Option (List Nat)) (r : Report) :
    scanStep r (WalkItem.file p none c)
      = { r with errors := r.errors ++ [⟨p, "failed to read metadata for " ++ dq p⟩] } ∧
    scanStep r (WalkItem.file p (some sz) none)
      = { r with size := r.size + sz,
                 extensions := incr r.extensions (extensionOf p),
                 errors := r.errors ++ [⟨p, "failed to detect mimetype for " ++ dq p⟩] } :=
  ⟨rfl, rfl⟩

/-- C1 counterexample: a file whose mimetype detection fails (one
ScanError recorded) still contributes its size and its extension to the
report, contradicting the claim that it contributes nothing. -/
theorem c1_counterexample :
    (scan [WalkItem.file "a.txt" (some 5) none]).errors.length = 1 ∧
    (scan [WalkItem.file "a.txt" (some 5) none]).size = 5 ∧
    (scan [WalkItem.file "a.txt" (some 5) none]).extensions = [("txt", 1)] ∧
    (scan [WalkItem.file "a.txt" (some 5) none]).mimetypes = [] := by
  exact ⟨by decide, by decide, by decide, by decide⟩

/-- C2: the claim's invariant `sum(extensions) = sum(mimetypes) =
#successes` does not hold on the code: a file that fails at the
mimetype-detection step is counted in `extensions` but not in
`mimetypes`.  Amended statement: `sum(mimetypes)` equals the number of
successfully processed files, `sum(extensions)` equals that number plus
the number of files failing only at mimetype detection, and the two
sums agree whenever no such failure occurs (in particular on an
error-free scan). -/
theorem c2_sum_invariant (items : List WalkItem) :
    sumValues (scan items).mimetypes = items.countP isSuccess ∧
    sumValues (scan items).extensions
        = items.countP isSuccess + items.countP isMimeFail ∧
    (items.countP isMimeFail = 0 →
        sumValues (scan items).extensions = sumValues (scan items).mimetypes) := by
  obtain ⟨h1, h2, _, _, _⟩ := scanList_stats items Report.empty
  refine ⟨?_, ?_, ?_⟩
  · rw [scan_def, h2]
    simp [Report.empty, sumValues]
  · rw [scan_def, h1]
    simp [Report.empty, sumValues]
  · intro h0
    rw [scan_def, h1, h2, h0]
    simp [Report.empty, sumValues]

/-- C2 witness: one successfully processed file, no mimetype failures. -/
theorem c2_sum_invariant_witness :
    ([WalkItem.file "i.png" (some 1) (some [2])].countP isMimeFail = 0) ∧
    sumValues (scan [WalkItem.file "i.png" (some 1) (some [2])]).extensions
      = sumValues (scan [WalkItem.file "i.png" (some 1) (some [2])]).mimetypes :=
  ⟨by decide, (c2_sum_invariant [WalkItem.file "i.png" (some 1) (some [2])]).2.2 (by decide)⟩

/-- C2 counterexample: one file failing at mimetype detection makes
`sum(extensions) = 1` but `sum(mimetypes) = 0`. -/
theorem c2_counterexample :
    sumValues (scan [WalkItem.file "a.txt" (some 3) none]).extensions = 1 ∧
    sumValues (scan [WalkItem.file "a.txt" (some 3) none]).mimetypes = 0 ∧
    sumValues (scan [WalkItem.file "a.txt" (some 3) none]).extensions
      ≠ sumValues (scan [WalkItem.file "a.txt" (some 3) none]).mimetypes := by
  exact ⟨by decide, by decide, by decide⟩

/-- C8: the scan is best-effort and total: every failing walk item is
absorbed as exactly one ScanError (errors count = failing-item count),
the successes and directories around failures are still fully counted,
the loop is compositional (processing `items ++ extra` continues from
the report left by `items`, so no failure aborts the remainder), and
only a non-existent root prevents the scan from starting: `main` scans
whenever the target exists and exits before scanning otherwise. -/
theorem c8_best_effort (items extra : List WalkItem) :
    (scan items).errors.length = items.countP isFailItem ∧
    sumValues (scan items).mimetypes = items.countP isSuccess ∧
    (scan items).folders.length = items.countP isDir ∧
    scanList (items ++ extra) Report.empty = scanList extra (scan items) ∧
    mainModel true items = some (scan items) ∧
    mainModel false items = none := by
  obtain ⟨_, h2, _, h4, h5⟩ := scanList_stats items Report.empty
  refine ⟨?_, ?_, ?_, ?_, rfl, rfl⟩
  · rw [scan_def, h4]
    simp [Report.empty]
  · rw [scan_def, h2]
    simp [Report.empty, sumValues]
  · rw [scan_def, h5]
    simp [Report.empty]
  · rw [scan_def]
    simp [scanList, List.foldl_append]

set_option maxRecDepth 100000 in
/-- C9: the JSON rendering of a report with empty chosen count map and
empty error list is syntactically valid JSON (checked by the
recursive-descent recogniser) for both grouping dimensions; the exact
output shows the empty object/array bodies (a bare blank line from the
`println!` of an empty join) and no dangling separators. -/
theorem c9_empty_json_valid :
    isValidJson (Report.display Report.empty OutputFormat.json false) = true ∧
    isValidJson (Report.display Report.empty OutputFormat.json true) = true ∧
    Report.display Report.empty OutputFormat.json false =
      "\x7b\n  \"files\": 0,\n  \"folders\": 0,\n  \"size\": 0,\n  \"extensions\": \x7b\n\n  \x7d,\n  \"errors\": [\n\n  ]\n\x7d\n" := by
  exact ⟨by decide, by decide, by decide⟩

set_option maxRecDepth 100000 in
/-- C10: `display_json` escapes backslashes and double quotes only in
the `message` field of an error record; the `path` field is
interpolated verbatim.  A report whose single error has path `a"b`
renders to output the JSON recogniser rejects, while the same quote in
the `message` field is escaped (`a"b` becomes `a\"b`) and yields valid
JSON. -/
theorem c10_path_not_escaped :
    isValidJson (Report.display reportQuotedPath OutputFormat.json false) = false ∧
    isValidJson (Report.display reportQuotedMessage OutputFormat.json false) = true ∧
    escapeMessage "a\"b" = "a\\\"b" ∧
    reportQuotedPath.errors = [⟨"a\"b", "m"⟩] := by
  exact ⟨by decide, by decide, by decide, by decide⟩

end Sumdir
